import Mathlib

/-!
# Ogg/Opus muxing demo (`opus.c`): header packets and packet bookkeeping

A shallow embedding of `write_opus_header`, `write_opus_tags` and `main` of
`src/opus.c`.  Byte buffers are lists of naturals below 256, C integers are
`Nat`/`Int` with explicit reduction where the C type narrows, and the calls the
program makes into libogg are recorded, in order, in a log.
-/

namespace OpusOgg

/-! ## Constants and C primitives -/

/-- The macro `#define SAMPLE_RATE 16000`. -/
def SAMPLE_RATE : Nat := 16000

/-- The macro `#define CHANNELS 1`. -/
def CHANNELS : Nat := 1

/-- The macro `#define FRAME_SIZE 960`. -/
def FRAME_SIZE : Nat := 960

/-- The bytes of an ASCII string literal, without the terminating NUL. -/
def ascii (s : String) : List Nat := s.toList.map Char.toNat

/-- The object a string literal denotes in memory: its bytes followed by NUL. -/
def cstring (s : List Nat) : List Nat := s ++ [0]

/-- The C function `strlen`: the number of bytes before the first NUL. -/
def strlen (mem : List Nat) : Nat := (mem.takeWhile (fun b => b != 0)).length

/-- Conversion of an integer value to `unsigned char` on assignment. -/
def to_uchar (x : Nat) : Nat := x % 256

/-- An automatic array of `n` bytes that has not been assigned yet: its
contents are indeterminate, here read off an arbitrary function `g`. -/
def uninit (g : Nat → Nat) (n : Nat) : List Nat := (List.range n).map (fun i => g i % 256)

/-- The call `memcpy(dst + off, src, n)` for ranges that lie inside both objects. -/
def memcpy (dst : List Nat) (off : Nat) (src : List Nat) (n : Nat) : List Nat :=
  dst.take off ++ src.take n ++ dst.drop (off + n)

/-- The call `strcpy(dst, src)`: copies the bytes of `src` up to and including the NUL. -/
def strcpy (dst : List Nat) (src : List Nat) : List Nat :=
  memcpy dst 0 src (strlen src + 1)

/-- Wrap-around of a mathematical integer into `ogg_int64_t`. -/
def wrap64 (x : Int) : Int := (x + 2 ^ 63) % 2 ^ 64 - 2 ^ 63

/-- The number `printf` shows for the conversion `%d` when the argument passed
is an `ogg_int64_t`: the conversion reads an `int`, which on LP64 is the low 32
bits of the argument taken as a signed value (the mismatch is undefined in C). -/
def printf_d (x : Int) : Int := (x + 2 ^ 31) % 2 ^ 32 - 2 ^ 31

/-! ## The identification header -/

/-- The `OpusHeader` struct (lines 13-21); every field is an unsigned C integer. -/
structure OpusHeader where
  capture_pattern : List Nat
  version : Nat
  channels : Nat
  pre_skip : Nat
  sample_rate : Nat
  output_gain : Nat
  mapping_family : Nat
deriving DecidableEq, Repr

/-- The initialiser of `header` in `write_opus_header` (lines 24-32). -/
def program_header : OpusHeader :=
  { capture_pattern := ascii "OpusHead"
    version := 1
    channels := CHANNELS
    pre_skip := 0
    sample_rate := SAMPLE_RATE
    output_gain := 0
    mapping_family := 0 }

/-- Lines 34-46 of `write_opus_header`: the field-by-field stores into
`unsigned char header_data[19]`, starting from indeterminate contents `g`. -/
def header_data_of (header : OpusHeader) (g : Nat → Nat) : List Nat :=
  let header_data := uninit g 19
  let header_data := memcpy header_data 0 header.capture_pattern 8
  let header_data := header_data.set 8 (to_uchar header.version)
  let header_data := header_data.set 9 (to_uchar header.channels)
  let header_data := header_data.set 10 (to_uchar (header.pre_skip &&& 0xFF))
  let header_data := header_data.set 11 (to_uchar ((header.pre_skip >>> 8) &&& 0xFF))
  let header_data := header_data.set 12 (to_uchar (header.sample_rate &&& 0xFF))
  let header_data := header_data.set 13 (to_uchar ((header.sample_rate >>> 8) &&& 0xFF))
  let header_data := header_data.set 14 (to_uchar ((header.sample_rate >>> 16) &&& 0xFF))
  let header_data := header_data.set 15 (to_uchar ((header.sample_rate >>> 24) &&& 0xFF))
  let header_data := header_data.set 16 (to_uchar (header.output_gain &&& 0xFF))
  let header_data := header_data.set 17 (to_uchar ((header.output_gain >>> 8) &&& 0xFF))
  let header_data := header_data.set 18 (to_uchar header.mapping_family)
  header_data

/-- Little-endian value of a byte string. -/
def le_value : List Nat → Nat
  | [] => 0
  | b :: bs => b + 256 * le_value bs

/-- A reader of the identification header that follows the layout the
specification gives (8-byte tag, version, channel count, 16-bit pre-skip,
32-bit sample rate, 16-bit gain, mapping family; multi-byte fields
little-endian), accepting exactly 19 bytes that start with the tag.  The gain
is returned as the 16-bit field value, the way `OpusHeader` declares it. -/
def spec_parse_header (d : List Nat) : Option OpusHeader :=
  if d.length = 19 ∧ d.take 8 = ascii "OpusHead" then
    some
      { capture_pattern := d.take 8
        version := le_value ((d.drop 8).take 1)
        channels := le_value ((d.drop 9).take 1)
        pre_skip := le_value ((d.drop 10).take 2)
        sample_rate := le_value ((d.drop 12).take 4)
        output_gain := le_value ((d.drop 16).take 2)
        mapping_family := le_value ((d.drop 18).take 1) }
  else none

/-! ## The comment header -/

/-- Lines 67-78 of `write_opus_tags`: the stores into
`unsigned char tags[16 + vendor_length]`, for the NUL-terminated object
`vendor_string`, starting from indeterminate contents `g`. -/
def tags_of (vendor_string : List Nat) (g : Nat → Nat) : List Nat :=
  let vendor_length := strlen vendor_string
  let tags := uninit g (16 + vendor_length)
  let tags := strcpy tags (cstring (ascii "OpusTags"))
  let tags := tags.set 8 (to_uchar (vendor_length &&& 0xFF))
  let tags := tags.set 9 (to_uchar ((vendor_length >>> 8) &&& 0xFF))
  let tags := tags.set 10 (to_uchar ((vendor_length >>> 16) &&& 0xFF))
  let tags := tags.set 11 (to_uchar ((vendor_length >>> 24) &&& 0xFF))
  let tags := memcpy tags 12 vendor_string vendor_length
  let tags := tags.set (12 + vendor_length) 0
  let tags := tags.set (13 + vendor_length) 0
  let tags := tags.set (14 + vendor_length) 0
  let tags := tags.set (15 + vendor_length) 0
  tags

/-! ## Packets and the calls into libogg -/

/-- What the `packet` member of an `ogg_packet` points at. -/
inductive Ptr where
  | header_data
  | tags
  | output
  | indeterminate
deriving DecidableEq, Repr

/-- The `ogg_packet` struct, with the members the program assigns. -/
structure ogg_packet where
  packet : Ptr
  bytes : Int
  b_o_s : Int
  e_o_s : Int
  granulepos : Int
  packetno : Int
deriving DecidableEq, Repr

/-- One interaction of the program with the Ogg stream and the output file.
`packetin op data` is `ogg_stream_packetin(os, &op)`, where `data` are the
`op.bytes` bytes found behind `op.packet` at the time of the call;
`flush` is one loop `while (ogg_stream_flush(os, &og)) { fwrite; fwrite }`;
`flush_fill n` is the same loop over `ogg_stream_flush_fill(os, &og, n)`. -/
inductive Call where
  | packetin (op : ogg_packet) (data : List Nat)
  | flush
  | flush_fill (nfill : Int)
deriving DecidableEq, Repr

/-- The function `write_opus_header` (lines 23-63): appends its calls to the log. -/
def write_opus_header (g : Nat → Nat) (log : List Call) : List Call :=
  let header := program_header
  let header_data := header_data_of header g
  let header_packet : ogg_packet :=
    { packet := Ptr.header_data
      bytes := 19
      b_o_s := 1
      e_o_s := 0
      granulepos := 0
      packetno := 0 }
  log ++ [Call.packetin header_packet (header_data.take header_packet.bytes.toNat), Call.flush]

/-- The function `write_opus_tags` (lines 65-95): appends its calls to the log. -/
def write_opus_tags (g : Nat → Nat) (log : List Call) : List Call :=
  let vendor_string := cstring (ascii "libopus")
  let vendor_length := strlen vendor_string
  let tags := tags_of vendor_string g
  let tags_packet : ogg_packet :=
    { packet := Ptr.tags
      bytes := ((16 + vendor_length : Nat) : Int)
      b_o_s := 0
      e_o_s := 0
      granulepos := 0
      packetno := 1 }
  log ++ [Call.packetin tags_packet (tags.take tags_packet.bytes.toNat), Call.flush]

/-! ## The encoding loop and `main` -/

/-- What `main` cannot determine itself: the results of the library and file
calls made before the loop, the input file, the encoder (a state machine
`opus_encode state input frame_size output max`, returning the next state, the
`int` result and the contents of `output` afterwards), and the indeterminate
initial contents of the automatic objects. -/
structure Env (σ : Type) where
  encoder_create_err : Int
  encoder_ctl_err : Int
  stream_init_err : Int
  out_opened : Bool
  input_file : Option (List Nat)
  encoder : σ
  opus_encode : σ → List Nat → Nat → List Nat → Nat → σ × Int × List Nat
  g_header_data : Nat → Nat
  g_tags : Nat → Nat
  g_output : Nat → Nat
  packet0 : ogg_packet
  wild : List Nat

/-- The variables of `main` that the loop reads and writes, and the log. -/
structure LoopState (σ : Type) where
  encoder : σ
  output : List Nat
  packet : ogg_packet
  total_samples : Int
  packet_no : Int
  log : List Call

/-- The bytes behind a packet pointer inside `main`: `output` for a pointer to
`output`, unspecified bytes `wild` for any other value. -/
def deref (p : Ptr) (output wild : List Nat) : List Nat :=
  match p with
  | Ptr.output => output
  | _ => wild

/-- The local `frame_size_in_bytes = FRAME_SIZE * CHANNELS * sizeof(short)`. -/
def frame_size_in_bytes : Nat := FRAME_SIZE * CHANNELS * 2

/-- The frames the `fread` loop condition accepts: the successive complete
blocks of `frame_size_in_bytes` bytes of the input file; a shorter tail ends
the loop. -/
def complete_frames (file : List Nat) : List (List Nat) :=
  (List.range (file.length / frame_size_in_bytes)).map
    (fun i => (file.drop (frame_size_in_bytes * i)).take frame_size_in_bytes)

/-- The `while` loop of `main` (lines 135-154) over the frames read.
`Except.error` is the exit through `CHECK_ERR(nb_bytes < 0, ...)`, carrying the
state at that point. -/
def main_loop {σ : Type} (env : Env σ) :
    List (List Nat) → LoopState σ → Except (LoopState σ) (LoopState σ)
  | [], s => Except.ok s
  | input :: rest, s =>
    let r := env.opus_encode s.encoder input FRAME_SIZE s.output 4096
    let nb_bytes := r.2.1
    let output := r.2.2
    if nb_bytes < 0 then
      Except.error { s with encoder := r.1, output := output }
    else
      let packet : ogg_packet :=
        { s.packet with
          packet := Ptr.output
          bytes := nb_bytes
          b_o_s := 0
          e_o_s := 0
          granulepos := s.total_samples
          packetno := s.packet_no }
      let packet_no := wrap64 (s.packet_no + 1)
      let log := s.log ++
        [Call.packetin packet ((deref packet.packet output env.wild).take packet.bytes.toNat),
         Call.flush]
      let total_samples := wrap64 (s.total_samples + ((FRAME_SIZE * 3 : Nat) : Int))
      main_loop env rest
        { encoder := r.1
          output := output
          packet := packet
          total_samples := total_samples
          packet_no := packet_no
          log := log }

/-- How the process ends. -/
inductive Outcome where
  | exit_failure (msg : String)
  | returned (code : Int)
deriving DecidableEq, Repr

/-- The observable result of a run of `main`: the calls made on the stream and
output file, how the process ended, and the two numbers shown by the
`total_samples %d packet_no %d` message of line 167, when it is reached. -/
structure Run where
  log : List Call
  outcome : Outcome
  report : Option (Int × Int)
deriving DecidableEq, Repr

/-- The function `main` (lines 97-178), as a function of its environment. -/
def main {σ : Type} (env : Env σ) : Run :=
  if env.encoder_create_err ≠ 0 then
    ⟨[], Outcome.exit_failure "Failed to create Opus encoder", none⟩
  else if env.encoder_ctl_err ≠ 0 then
    ⟨[], Outcome.exit_failure "Failed to set Opus encoder bitrate", none⟩
  else if env.stream_init_err ≠ 0 then
    ⟨[], Outcome.exit_failure "Failed to initialize Ogg stream", none⟩
  else if !env.out_opened then
    ⟨[], Outcome.exit_failure "Failed to open output file", none⟩
  else
    let log := write_opus_header env.g_header_data []
    let log := write_opus_tags env.g_tags log
    match env.input_file with
    | none => ⟨log, Outcome.returned 1, none⟩
    | some file =>
      let s0 : LoopState σ :=
        { encoder := env.encoder
          output := uninit env.g_output 4096
          packet := env.packet0
          total_samples := 0
          packet_no := 2
          log := log }
      match main_loop env (complete_frames file) s0 with
      | Except.error s => ⟨s.log, Outcome.exit_failure "Opus encoding failed", none⟩
      | Except.ok s =>
        let packet : ogg_packet :=
          { s.packet with
            e_o_s := 1
            granulepos := s.total_samples
            packetno := s.packet_no }
        let packet_no := wrap64 (s.packet_no + 1)
        let log := s.log ++
          [Call.packetin packet ((deref packet.packet s.output env.wild).take packet.bytes.toNat),
           Call.flush_fill 4096]
        ⟨log, Outcome.returned 0, some (printf_d s.total_samples, printf_d packet_no)⟩

/-! ## Reference notions used to state the properties -/

/-- The calls before the loop succeed, so that the headers get written. -/
def setup_ok {σ : Type} (env : Env σ) : Prop :=
  env.encoder_create_err = 0 ∧ env.encoder_ctl_err = 0 ∧ env.stream_init_err = 0 ∧
    env.out_opened = true

instance {σ : Type} (env : Env σ) : Decidable (setup_ok env) := by
  unfold setup_ok
  exact inferInstance

/-- The successive results of the encoder over a list of frames, each the
returned `int` and the contents of `output` after the call, whatever the
results are. -/
def encode_results {σ : Type} (env : Env σ) : σ → List Nat → List (List Nat) → List (Int × List Nat)
  | _, _, [] => []
  | e, output, input :: rest =>
    let r := env.opus_encode e input FRAME_SIZE output 4096
    (r.2.1, r.2.2) :: encode_results env r.1 r.2.2 rest

/-- The encoder results over the complete frames of an input file in a run. -/
def encodings {σ : Type} (env : Env σ) (file : List Nat) : List (Int × List Nat) :=
  encode_results env env.encoder (uninit env.g_output 4096) (complete_frames file)

/-- The compressed frame an encoder result denotes: the first `nb_bytes` bytes
of `output`. -/
def payload (r : Int × List Nat) : List Nat := r.2.take r.1.toNat

/-- The packets handed to `ogg_stream_packetin`, in order, with their bytes. -/
def submitted : List Call → List (ogg_packet × List Nat)
  | [] => []
  | Call.packetin op data :: rest => (op, data) :: submitted rest
  | Call.flush :: rest => submitted rest
  | Call.flush_fill _ :: rest => submitted rest

/-- Modelled from the spec: libogg (`ogg_stream_packetin`, `ogg_stream_flush`,
`ogg_stream_flush_fill`) is an external library, not part of the repository.
Following section 4.2 of the specification, a submitted packet is appended to
the pending buffer, and a flush loop drains every pending packet into pages
that are written to the sink at once.  `sink` has one entry per flush loop that
wrote pages, listing the packets those pages carry; `seen` records the number
of pending packets found at each flush loop. -/
structure Muxer where
  pending : List (ogg_packet × List Nat)
  sink : List (List (ogg_packet × List Nat))
  seen : List Nat
deriving DecidableEq, Repr

/-- The drain performed by a flush loop on the modelled stream. -/
def Muxer.drain (m : Muxer) : Muxer :=
  { pending := []
    sink := if m.pending = [] then m.sink else m.sink ++ [m.pending]
    seen := m.seen ++ [m.pending.length] }

/-- The effect of one call on the modelled stream. -/
def Muxer.call (m : Muxer) : Call → Muxer
  | Call.packetin op data => { m with pending := m.pending ++ [(op, data)] }
  | Call.flush => m.drain
  | Call.flush_fill _ => m.drain

/-- The modelled stream after a log of calls, from a fresh stream. -/
def replay (log : List Call) : Muxer := log.foldl Muxer.call ⟨[], [], []⟩

/-- A log in which every `packetin` is immediately followed by a flush loop,
and nothing else occurs. -/
def alternates : List Call → Bool
  | [] => true
  | Call.packetin _ _ :: Call.flush :: rest => alternates rest
  | Call.packetin _ _ :: Call.flush_fill _ :: rest => alternates rest
  | _ => false

/-- The packet the loop body builds from an encoder result `r` when the running
total is `t` and the packet counter is `p`. -/
def audio_packet (t p : Int) (r : Int × List Nat) : ogg_packet :=
  { packet := Ptr.output
    bytes := r.1
    b_o_s := 0
    e_o_s := 0
    granulepos := t
    packetno := p }

/-- Closed form of the calls of the loop over successful encoder results,
starting at running total `t` and packet counter `p`. -/
def audio_log : Int → Int → List (Int × List Nat) → List Call
  | _, _, [] => []
  | t, p, r :: rs =>
    Call.packetin (audio_packet t p r) (payload r) :: Call.flush ::
      audio_log (t + 2880) (p + 1) rs

/-- Closed form of the variables `packet` and `output` after the loop. -/
def final_vars : ogg_packet × List Nat → Int → Int → List (Int × List Nat) →
    ogg_packet × List Nat
  | po, _, _, [] => po
  | _, t, p, r :: rs => final_vars (audio_packet t p r, r.2) (t + 2880) (p + 1) rs

/-- The packet struct of `write_opus_header` (lines 48-55). -/
def header_packet : ogg_packet :=
  { packet := Ptr.header_data, bytes := 19, b_o_s := 1, e_o_s := 0, granulepos := 0, packetno := 0 }

/-- The packet struct of `write_opus_tags` (lines 80-87), `sizeof(tags)` being
23 for the vendor string `"libopus"`. -/
def tags_packet : ogg_packet :=
  { packet := Ptr.tags, bytes := 23, b_o_s := 0, e_o_s := 0, granulepos := 0, packetno := 1 }

/-- Closed form of the calls of the two header functions. -/
def headers_log {σ : Type} (env : Env σ) : List Call :=
  [Call.packetin header_packet (header_data_of program_header env.g_header_data), Call.flush,
   Call.packetin tags_packet (tags_of (cstring (ascii "libopus")) env.g_tags), Call.flush]

/-- Closed form of the final packet of a run over successful encoder results
`rs`: the variable `packet` as the loop left it, with the three members that
lines 157-159 assign. -/
def final_packet {σ : Type} (env : Env σ) (rs : List (Int × List Nat)) : ogg_packet :=
  { (final_vars (env.packet0, uninit env.g_output 4096) 0 2 rs).1 with
    e_o_s := 1
    granulepos := 2880 * (rs.length : Int)
    packetno := 2 + (rs.length : Int) }

/-- Closed form of the bytes behind the final packet. -/
def final_data {σ : Type} (env : Env σ) (rs : List (Int × List Nat)) : List Nat :=
  (deref (final_packet env rs).packet
      (final_vars (env.packet0, uninit env.g_output 4096) 0 2 rs).2 env.wild).take
    (final_packet env rs).bytes.toNat

/-- The log at the end of the loop, whichever way it ended. -/
def loop_log {σ : Type} : Except (LoopState σ) (LoopState σ) → List Call
  | Except.ok s => s.log
  | Except.error s => s.log

/-! ## Concrete runs -/

/-- A small encoder for concrete runs: its state counts the frames seen; it
answers `-1` on frame number `bad` (counting from 1) and otherwise answers
`nb` after writing three bytes, the first being the frame number. -/
def sample_encode (bad : Nat) (nb : Int) (k : Nat) (_input : List Nat) (_frame_size : Nat)
    (output : List Nat) (_max : Nat) : Nat × Int × List Nat :=
  if k + 1 = bad then (k + 1, -1, output)
  else (k + 1, nb, [(k + 1) % 256, 170, 85] ++ output.drop 3)

/-- A run in which everything before the loop succeeds, over an input file of
`len` zero bytes, with `sample_encode bad nb`, and with the given indeterminate
contents of `packet`. -/
def sample_env (bad : Nat) (nb : Int) (len : Nat) (packet0 : ogg_packet) : Env Nat :=
  { encoder_create_err := 0
    encoder_ctl_err := 0
    stream_init_err := 0
    out_opened := true
    input_file := some (List.replicate len 0)
    encoder := 0
    opus_encode := sample_encode bad nb
    g_header_data := fun _ => 0
    g_tags := fun i => i
    g_output := fun _ => 255
    packet0 := packet0
    wild := [1, 2, 3, 4] }

/-! ## Basic facts -/

theorem ascii_OpusHead : ascii "OpusHead" = [79, 112, 117, 115, 72, 101, 97, 100] := by
  decide

theorem ascii_OpusTags : ascii "OpusTags" = [79, 112, 117, 115, 84, 97, 103, 115] := by
  decide

theorem ascii_libopus : ascii "libopus" = [108, 105, 98, 111, 112, 117, 115] := by
  decide

theorem and_ff (x : Nat) : x &&& 0xFF = x % 256 :=
  Nat.and_pow_two_sub_one_eq_mod x 8

theorem header_data_of_eq (header : OpusHeader) (g : Nat → Nat)
    (hcap : header.capture_pattern = ascii "OpusHead") :
    header_data_of header g =
      ascii "OpusHead" ++
        [header.version % 256, header.channels % 256,
         header.pre_skip % 256, header.pre_skip / 256 % 256,
         header.sample_rate % 256, header.sample_rate / 256 % 256,
         header.sample_rate / 65536 % 256, header.sample_rate / 16777216 % 256,
         header.output_gain % 256, header.output_gain / 256 % 256,
         header.mapping_family % 256] := by
  simp [header_data_of, hcap, ascii_OpusHead, memcpy, uninit, List.range_succ, to_uchar, and_ff,
    Nat.shiftRight_eq_div_pow]

theorem strlen_cstring (v : List Nat) (hv : ∀ b ∈ v, b ≠ 0) : strlen (cstring v) = v.length := by
  induction v with
  | nil => simp [strlen, cstring]
  | cons a v ih =>
    have ha : a ≠ 0 := hv a (by simp)
    have ih2 := ih (fun b hb => hv b (by simp [hb]))
    simp only [strlen, cstring] at ih2 ⊢
    simp [List.takeWhile_cons, ha, ih2]

theorem uninit_length (g : Nat → Nat) (n : Nat) : (uninit g n).length = n := by
  simp [uninit]

theorem split_tags_buffer (L : Nat) (t : List Nat) (ht : t.length = 16 + L) :
    ∃ a : List Nat, ∃ m : List Nat, ∃ z : List Nat,
      a.length = 12 ∧ m.length = L ∧ z.length = 4 ∧ t = a ++ (m ++ z) := by
  refine ⟨t.take 12, (t.drop 12).take L, t.drop (12 + L), ?_, ?_, ?_, ?_⟩
  · simp; omega
  · simp; omega
  · simp; omega
  · rw [← List.drop_drop, List.take_append_drop, List.take_append_drop]

theorem set_append_at (v rest : List Nat) (k x : Nat) :
    (v ++ rest).set (v.length + k) x = v ++ rest.set k x := by
  induction v with
  | nil => simp
  | cons a v ih =>
    have e : (a :: v).length + k = (v.length + k) + 1 := by simp; omega
    rw [e]
    simp [List.set_cons_succ, ih]

theorem drop_append_at (m rest : List Nat) (L : Nat) (hm : m.length = L) :
    (m ++ rest).drop L = rest := by
  subst hm
  simp

theorem tags_of_eq (v : List Nat) (g : Nat → Nat) (hv : ∀ b ∈ v, b ≠ 0) :
    tags_of (cstring v) g =
      ascii "OpusTags" ++
        ([v.length % 256, v.length / 256 % 256, v.length / 65536 % 256,
          v.length / 16777216 % 256] ++ (v ++ [0, 0, 0, 0])) := by
  obtain ⟨a, m, z, ha, hm, hz, ht⟩ :=
    split_tags_buffer v.length (uninit g (16 + v.length)) (uninit_length g _)
  have hs : strlen (cstring (ascii "OpusTags")) = 8 := by decide
  simp only [tags_of, strlen_cstring v hv, ht, strcpy, hs]
  match a, ha with
  | [a0, a1, a2, a3, a4, a5, a6, a7, a8, a9, a10, a11], _ =>
    match z, hz with
    | [z0, z1, z2, z3], _ =>
      have e13 : 13 + v.length = (v.length + 1) + 12 := by omega
      have e14 : 14 + v.length = (v.length + 2) + 12 := by omega
      have e15 : 15 + v.length = (v.length + 3) + 12 := by omega
      have e12d : 12 + v.length = v.length + 12 := by omega
      simp [memcpy, cstring, ascii_OpusTags, to_uchar, and_ff, Nat.shiftRight_eq_div_pow, hm]
      rw [e12d, e13, e14, e15]
      simp only [List.drop_succ_cons, drop_append_at m _ v.length hm, List.set_cons_succ]
      rw [← Nat.add_zero v.length, set_append_at, Nat.add_zero, set_append_at, set_append_at,
        set_append_at]
      rfl

/-! ## The header packets -/

/-- Claim C1. For every assignment of the unsigned fields of `OpusHeader` (with
the tag `"OpusHead"`), the serialisation of `write_opus_header` gives exactly 19
bytes: the tag in bytes 0..7, then version, channel count, pre-skip (2 bytes,
little-endian), sample rate (4 bytes, little-endian), output gain (2 bytes,
little-endian) and mapping family; a little-endian reader of that layout
returns the header it started from; and the packet `write_opus_header` submits
carries the serialisation of the program's own header. -/
theorem C1_identification_header_layout_and_roundtrip (header : OpusHeader) (g : Nat → Nat)
    (hcap : header.capture_pattern = ascii "OpusHead")
    (hversion : header.version < 2 ^ 8) (hchannels : header.channels < 2 ^ 8)
    (hpre_skip : header.pre_skip < 2 ^ 16) (hsample_rate : header.sample_rate < 2 ^ 32)
    (houtput_gain : header.output_gain < 2 ^ 16)
    (hmapping_family : header.mapping_family < 2 ^ 8) :
    (header_data_of header g).length = 19 ∧
    (header_data_of header g).take 8 = ascii "OpusHead" ∧
    (header_data_of header g).drop 8 =
      [header.version, header.channels,
       header.pre_skip % 256, header.pre_skip / 256,
       header.sample_rate % 256, header.sample_rate / 256 % 256,
       header.sample_rate / 65536 % 256, header.sample_rate / 16777216,
       header.output_gain % 256, header.output_gain / 256,
       header.mapping_family] ∧
    (∀ b ∈ header_data_of header g, b < 256) ∧
    spec_parse_header (header_data_of header g) = some header ∧
    (submitted (write_opus_header g [])).map Prod.snd = [header_data_of program_header g] := by
  have e1 : header.version % 256 = header.version := Nat.mod_eq_of_lt (by omega)
  have e2 : header.channels % 256 = header.channels := Nat.mod_eq_of_lt (by omega)
  have e3 : header.pre_skip / 256 % 256 = header.pre_skip / 256 := Nat.mod_eq_of_lt (by omega)
  have e4 : header.sample_rate / 16777216 % 256 = header.sample_rate / 16777216 :=
    Nat.mod_eq_of_lt (by omega)
  have e5 : header.output_gain / 256 % 256 = header.output_gain / 256 :=
    Nat.mod_eq_of_lt (by omega)
  have e6 : header.mapping_family % 256 = header.mapping_family := Nat.mod_eq_of_lt (by omega)
  have hpg : (header_data_of program_header g).length = 19 := by
    rw [header_data_of_eq program_header g rfl, ascii_OpusHead]; rfl
  rw [header_data_of_eq header g hcap, e1, e2, e3, e4, e5, e6, ascii_OpusHead]
  refine ⟨rfl, rfl, rfl, ?_, ?_, ?_⟩
  · intro b hb
    simp only [List.cons_append, List.nil_append, List.mem_cons, List.mem_singleton,
      List.not_mem_nil, or_false] at hb
    omega
  · obtain ⟨cp, v, c, p, s, og, mf⟩ := header
    simp only at hcap hversion hchannels hpre_skip hsample_rate houtput_gain hmapping_family ⊢
    subst hcap
    simp only [spec_parse_header, ascii_OpusHead, List.cons_append, List.nil_append,
      List.length_cons, List.length_nil, List.take_succ_cons, List.take_zero, List.drop_succ_cons,
      List.drop_zero, le_value, and_self, if_true, Option.some.injEq, OpusHeader.mk.injEq,
      true_and, Nat.reduceAdd]
    refine ⟨by omega, by omega, by omega, by omega, by omega, by omega⟩
  · simp only [write_opus_header, List.nil_append, submitted, List.map_cons, List.map_nil,
      List.cons.injEq, and_true]
    have h19 : Int.toNat 19 = (header_data_of program_header g).length := by rw [hpg]; rfl
    rw [h19]
    exact List.take_length _

/-- The program's own header satisfies the hypotheses of claim C1. -/
theorem C1_witness :
    (header_data_of program_header (fun _ => 0)).length = 19 ∧
    (header_data_of program_header (fun _ => 0)).take 8 = ascii "OpusHead" ∧
    (header_data_of program_header (fun _ => 0)).drop 8 =
      [program_header.version, program_header.channels,
       program_header.pre_skip % 256, program_header.pre_skip / 256,
       program_header.sample_rate % 256, program_header.sample_rate / 256 % 256,
       program_header.sample_rate / 65536 % 256, program_header.sample_rate / 16777216,
       program_header.output_gain % 256, program_header.output_gain / 256,
       program_header.mapping_family] ∧
    (∀ b ∈ header_data_of program_header (fun _ => 0), b < 256) ∧
    spec_parse_header (header_data_of program_header (fun _ => 0)) = some program_header ∧
    (submitted (write_opus_header (fun _ => 0) [])).map Prod.snd =
      [header_data_of program_header (fun _ => 0)] :=
  C1_identification_header_layout_and_roundtrip program_header (fun _ => 0) rfl
    (by decide) (by decide) (by decide) (by decide) (by decide) (by decide)

/-- Claim C2. For every vendor string `v` (a C string: no NUL byte inside) of
length `L < 2^32`, the buffer built by the stores of `write_opus_tags` has
exactly `16 + L` bytes: `"OpusTags"` in bytes 0..7, `L` as four little-endian
bytes in 8..11, the bytes of `v` in 12..12+L-1, and four zero bytes (the empty
comment list) at the end; and the packet `write_opus_tags` submits carries that
buffer for the vendor string `"libopus"`. -/
theorem C2_comment_header_layout (v : List Nat) (g : Nat → Nat)
    (hv : ∀ b ∈ v, b ≠ 0) (hL : v.length < 2 ^ 32) :
    (tags_of (cstring v) g).length = 16 + v.length ∧
    (tags_of (cstring v) g).take 8 = ascii "OpusTags" ∧
    ((tags_of (cstring v) g).drop 8).take 4 =
      [v.length % 256, v.length / 256 % 256, v.length / 65536 % 256, v.length / 16777216] ∧
    le_value (((tags_of (cstring v) g).drop 8).take 4) = v.length ∧
    ((tags_of (cstring v) g).drop 12).take v.length = v ∧
    (tags_of (cstring v) g).drop (12 + v.length) = [0, 0, 0, 0] ∧
    (submitted (write_opus_tags g [])).map Prod.snd = [tags_of (cstring (ascii "libopus")) g] := by
  have e4 : v.length / 16777216 % 256 = v.length / 16777216 := Nat.mod_eq_of_lt (by omega)
  have hlib : ∀ b ∈ ascii "libopus", b ≠ 0 := by decide
  have hlen : (tags_of (cstring (ascii "libopus")) g).length = 23 := by
    rw [tags_of_eq _ g hlib, ascii_OpusTags, ascii_libopus]; rfl
  have e12 : 12 + v.length = v.length + 12 := by omega
  rw [tags_of_eq v g hv, e4, ascii_OpusTags]
  refine ⟨?_, rfl, rfl, ?_, ?_, ?_, ?_⟩
  · simp; omega
  · simp only [List.cons_append, List.nil_append, List.drop_succ_cons, List.drop_zero,
      List.take_succ_cons, List.take_zero, le_value]
    omega
  · simp
  · rw [e12]
    simp
  · simp only [write_opus_tags, List.nil_append, submitted, List.map_cons, List.map_nil,
      List.cons.injEq, and_true]
    have hs : strlen (cstring (ascii "libopus")) = 7 := by decide
    have h23 : Int.toNat ((16 + strlen (cstring (ascii "libopus")) : Nat) : Int) =
        (tags_of (cstring (ascii "libopus")) g).length := by
      rw [hlen, hs]; rfl
    rw [h23]
    exact List.take_length _

/-- The program's vendor string `"libopus"` satisfies the hypotheses of claim C2:
23 bytes, vendor length field 7. -/
theorem C2_witness :
    (tags_of (cstring (ascii "libopus")) (fun i => i)).length = 23 ∧
    (tags_of (cstring (ascii "libopus")) (fun i => i)).take 8 = ascii "OpusTags" ∧
    ((tags_of (cstring (ascii "libopus")) (fun i => i)).drop 8).take 4 = [7, 0, 0, 0] ∧
    le_value (((tags_of (cstring (ascii "libopus")) (fun i => i)).drop 8).take 4) = 7 ∧
    ((tags_of (cstring (ascii "libopus")) (fun i => i)).drop 12).take 7 = ascii "libopus" ∧
    (tags_of (cstring (ascii "libopus")) (fun i => i)).drop 19 = [0, 0, 0, 0] ∧
    (submitted (write_opus_tags (fun i => i) [])).map Prod.snd =
      [tags_of (cstring (ascii "libopus")) (fun i => i)] :=
  C2_comment_header_layout (ascii "libopus") (fun i => i) (by decide) (by decide)

/-! ## The encoding loop -/

theorem wrap64_eq (x : Int) (h1 : -2 ^ 63 ≤ x) (h2 : x < 2 ^ 63) : wrap64 x = x := by
  unfold wrap64
  omega

theorem main_loop_ok {σ : Type} (env : Env σ) (frames : List (List Nat)) :
    ∀ s : LoopState σ,
      (∀ r ∈ encode_results env s.encoder s.output frames, 0 ≤ r.1) →
      -2 ^ 63 ≤ s.total_samples → s.total_samples + 2880 * frames.length < 2 ^ 63 →
      -2 ^ 63 ≤ s.packet_no → s.packet_no + frames.length < 2 ^ 63 →
      ∃ s' : LoopState σ, main_loop env frames s = Except.ok s' ∧
        s'.log = s.log ++
          audio_log s.total_samples s.packet_no (encode_results env s.encoder s.output frames) ∧
        s'.total_samples = s.total_samples + 2880 * frames.length ∧
        s'.packet_no = s.packet_no + frames.length ∧
        (s'.packet, s'.output) =
          final_vars (s.packet, s.output) s.total_samples s.packet_no
            (encode_results env s.encoder s.output frames) := by
  induction frames with
  | nil =>
    intro s _ _ _ _ _
    exact ⟨s, rfl, by simp [encode_results, audio_log], by simp, by simp,
      by simp [encode_results, final_vars]⟩
  | cons input rest ih =>
    intro s hr ht1 ht2 hp1 hp2
    simp only [List.length_cons, Nat.cast_add, Nat.cast_one] at ht2 hp2
    have hnb : ¬ (env.opus_encode s.encoder input FRAME_SIZE s.output 4096).2.1 < 0 := by
      have := hr ((env.opus_encode s.encoder input FRAME_SIZE s.output 4096).2.1,
        (env.opus_encode s.encoder input FRAME_SIZE s.output 4096).2.2) (by simp [encode_results])
      simpa using this
    have hw1 : wrap64 (s.total_samples + ((FRAME_SIZE * 3 : Nat) : Int)) = s.total_samples + 2880 := by
      have e : ((FRAME_SIZE * 3 : Nat) : Int) = 2880 := by decide
      rw [e]
      exact wrap64_eq _ (by omega) (by omega)
    have hw2 : wrap64 (s.packet_no + 1) = s.packet_no + 1 := wrap64_eq _ (by omega) (by omega)
    obtain ⟨s', h1, h2, h3, h4, h5⟩ := ih
      { encoder := (env.opus_encode s.encoder input FRAME_SIZE s.output 4096).1
        output := (env.opus_encode s.encoder input FRAME_SIZE s.output 4096).2.2
        packet := audio_packet s.total_samples s.packet_no
          ((env.opus_encode s.encoder input FRAME_SIZE s.output 4096).2.1,
            (env.opus_encode s.encoder input FRAME_SIZE s.output 4096).2.2)
        total_samples := s.total_samples + 2880
        packet_no := s.packet_no + 1
        log := s.log ++
          [Call.packetin (audio_packet s.total_samples s.packet_no
              ((env.opus_encode s.encoder input FRAME_SIZE s.output 4096).2.1,
                (env.opus_encode s.encoder input FRAME_SIZE s.output 4096).2.2))
            (payload ((env.opus_encode s.encoder input FRAME_SIZE s.output 4096).2.1,
                (env.opus_encode s.encoder input FRAME_SIZE s.output 4096).2.2)),
           Call.flush] }
      (fun r hmem => hr r (by simp [encode_results, hmem]))
      (by simp only; omega) (by simp only; omega) (by simp only; omega) (by simp only; omega)
    refine ⟨s', ?_, ?_, ?_, ?_, ?_⟩
    · rw [← h1]
      simp only [main_loop, hnb, if_false, hw1, hw2, audio_packet, payload, deref]
    · rw [h2]
      simp [encode_results, audio_log]
    · rw [h3]
      simp only [List.length_cons, Nat.cast_add, Nat.cast_one]
      ring
    · rw [h4]
      simp only [List.length_cons, Nat.cast_add, Nat.cast_one]
      ring
    · rw [h5]
      simp [encode_results, final_vars]

theorem main_loop_fail {σ : Type} (env : Env σ) (j : Nat) :
    ∀ (frames : List (List Nat)) (s : LoopState σ),
      (∀ r ∈ (encode_results env s.encoder s.output frames).take j, 0 ≤ r.1) →
      (∃ r, (encode_results env s.encoder s.output frames)[j]? = some r ∧ r.1 < 0) →
      -2 ^ 63 ≤ s.total_samples → s.total_samples + 2880 * j < 2 ^ 63 →
      -2 ^ 63 ≤ s.packet_no → s.packet_no + j < 2 ^ 63 →
      ∃ s' : LoopState σ, main_loop env frames s = Except.error s' ∧
        s'.log = s.log ++
          audio_log s.total_samples s.packet_no
            ((encode_results env s.encoder s.output frames).take j) := by
  induction j with
  | zero =>
    intro frames s _ hbad _ _ _ _
    obtain ⟨r, hr, hneg⟩ := hbad
    cases frames with
    | nil => simp [encode_results] at hr
    | cons input rest =>
      simp only [encode_results, List.getElem?_cons_zero, Option.some.injEq] at hr
      subst hr
      simp only at hneg
      simp only [main_loop, hneg, if_true]
      exact ⟨_, rfl, by simp [audio_log]⟩
  | succ j ih =>
    intro frames s hgood hbad ht1 ht2 hp1 hp2
    obtain ⟨r, hr, hneg⟩ := hbad
    cases frames with
    | nil => simp [encode_results] at hr
    | cons input rest =>
      simp only [Nat.cast_add, Nat.cast_one] at ht2 hp2
      simp only [encode_results, List.getElem?_cons_succ] at hr
      have hnb : ¬ (env.opus_encode s.encoder input FRAME_SIZE s.output 4096).2.1 < 0 := by
        have := hgood ((env.opus_encode s.encoder input FRAME_SIZE s.output 4096).2.1,
          (env.opus_encode s.encoder input FRAME_SIZE s.output 4096).2.2)
          (by simp [encode_results])
        simpa using this
      have hw1 : wrap64 (s.total_samples + ((FRAME_SIZE * 3 : Nat) : Int)) =
          s.total_samples + 2880 := by
        have e : ((FRAME_SIZE * 3 : Nat) : Int) = 2880 := by decide
        rw [e]
        exact wrap64_eq _ (by omega) (by omega)
      have hw2 : wrap64 (s.packet_no + 1) = s.packet_no + 1 :=
        wrap64_eq _ (by omega) (by omega)
      obtain ⟨s', h1, h2⟩ := ih rest
        { encoder := (env.opus_encode s.encoder input FRAME_SIZE s.output 4096).1
          output := (env.opus_encode s.encoder input FRAME_SIZE s.output 4096).2.2
          packet := audio_packet s.total_samples s.packet_no
            ((env.opus_encode s.encoder input FRAME_SIZE s.output 4096).2.1,
              (env.opus_encode s.encoder input FRAME_SIZE s.output 4096).2.2)
          total_samples := s.total_samples + 2880
          packet_no := s.packet_no + 1
          log := s.log ++
            [Call.packetin (audio_packet s.total_samples s.packet_no
                ((env.opus_encode s.encoder input FRAME_SIZE s.output 4096).2.1,
                  (env.opus_encode s.encoder input FRAME_SIZE s.output 4096).2.2))
              (payload ((env.opus_encode s.encoder input FRAME_SIZE s.output 4096).2.1,
                  (env.opus_encode s.encoder input FRAME_SIZE s.output 4096).2.2)),
             Call.flush] }
        (fun r hmem => hgood r (by simp [encode_results, hmem]))
        ⟨r, hr, hneg⟩
        (by simp only; omega) (by simp only; omega) (by simp only; omega) (by simp only; omega)
      refine ⟨s', ?_, ?_⟩
      · rw [← h1]
        simp only [main_loop, hnb, if_false, hw1, hw2, audio_packet, payload, deref]
      · rw [h2]
        simp [encode_results, audio_log]

theorem encode_results_length {σ : Type} (env : Env σ) (frames : List (List Nat)) :
    ∀ (e : σ) (output : List Nat), (encode_results env e output frames).length = frames.length := by
  induction frames with
  | nil => intro e output; rfl
  | cons input rest ih => intro e output; simp [encode_results, ih]

theorem complete_frames_length (file : List Nat) :
    (complete_frames file).length = file.length / frame_size_in_bytes := by
  simp [complete_frames]

theorem encodings_length {σ : Type} (env : Env σ) (file : List Nat) :
    (encodings env file).length = (complete_frames file).length := by
  simp [encodings, encode_results_length]

/-! ## Facts about logs -/

theorem submitted_append (a b : List Call) : submitted (a ++ b) = submitted a ++ submitted b := by
  induction a with
  | nil => rfl
  | cons c a ih => cases c <;> simp [submitted, ih]

theorem audio_log_packetno (rs : List (Int × List Nat)) :
    ∀ t p : Int, (submitted (audio_log t p rs)).map (fun x => x.1.packetno) =
      (List.range rs.length).map (fun i : Nat => p + (i : Int)) := by
  induction rs with
  | nil => intro t p; rfl
  | cons r rs ih =>
    intro t p
    simp only [audio_log, submitted, ih, List.length_cons, List.range_succ_eq_map, List.map_cons,
      List.map_map, audio_packet, Nat.cast_zero, add_zero, List.cons.injEq, true_and]
    apply List.map_congr_left
    intro i _
    simp only [Function.comp, Nat.cast_succ]
    ring

theorem audio_log_granulepos (rs : List (Int × List Nat)) :
    ∀ t p : Int, (submitted (audio_log t p rs)).map (fun x => x.1.granulepos) =
      (List.range rs.length).map (fun i : Nat => t + 2880 * (i : Int)) := by
  induction rs with
  | nil => intro t p; rfl
  | cons r rs ih =>
    intro t p
    simp only [audio_log, submitted, ih, List.length_cons, List.range_succ_eq_map, List.map_cons,
      List.map_map, audio_packet, Nat.cast_zero, mul_zero, add_zero, List.cons.injEq, true_and]
    apply List.map_congr_left
    intro i _
    simp only [Function.comp, Nat.cast_succ]
    ring

theorem audio_log_data (rs : List (Int × List Nat)) :
    ∀ t p : Int, (submitted (audio_log t p rs)).map Prod.snd = rs.map payload := by
  induction rs with
  | nil => intro t p; rfl
  | cons r rs ih => intro t p; simp [audio_log, submitted, ih]

theorem audio_log_bytes (rs : List (Int × List Nat)) :
    ∀ t p : Int, (submitted (audio_log t p rs)).map (fun x => x.1.bytes) = rs.map Prod.fst := by
  induction rs with
  | nil => intro t p; rfl
  | cons r rs ih => intro t p; simp [audio_log, submitted, ih, audio_packet]

theorem audio_log_flags (rs : List (Int × List Nat)) :
    ∀ t p : Int, ∀ x ∈ submitted (audio_log t p rs),
      x.1.b_o_s = 0 ∧ x.1.e_o_s = 0 ∧ x.1.packet = Ptr.output := by
  induction rs with
  | nil => intro t p x hx; simp [audio_log, submitted] at hx
  | cons r rs ih =>
    intro t p x hx
    simp only [audio_log, submitted, List.mem_cons] at hx
    rcases hx with hx | hx
    · subst hx; simp [audio_packet]
    · exact ih _ _ x hx

theorem audio_log_length (rs : List (Int × List Nat)) :
    ∀ t p : Int, (submitted (audio_log t p rs)).length = rs.length := by
  induction rs with
  | nil => intro t p; rfl
  | cons r rs ih => intro t p; simp [audio_log, submitted, ih]

theorem audio_log_getElem (rs : List (Int × List Nat)) :
    ∀ (t p : Int) (k : Nat), (submitted (audio_log t p rs))[k]? =
      rs[k]?.map (fun r => (audio_packet (t + 2880 * (k : Int)) (p + (k : Int)) r, payload r)) := by
  induction rs with
  | nil => intro t p k; simp [audio_log, submitted]
  | cons r rs ih =>
    intro t p k
    cases k with
    | zero => simp [audio_log, submitted]
    | succ k =>
      simp only [audio_log, submitted, List.getElem?_cons_succ, ih, Nat.cast_succ]
      congr 1
      funext r
      congr 2 <;> ring

theorem final_vars_last (rs : List (Int × List Nat)) :
    ∀ (po : ogg_packet × List Nat) (t p : Int) (r : Int × List Nat),
      final_vars po t p (rs ++ [r]) =
        (audio_packet (t + 2880 * (rs.length : Int)) (p + (rs.length : Int)) r, r.2) := by
  induction rs with
  | nil => intro po t p r; simp [final_vars]
  | cons a rs ih =>
    intro po t p r
    show final_vars (audio_packet t p a, a.2) (t + 2880) (p + 1) (rs ++ [r]) = _
    rw [ih]
    simp only [List.length_cons, Nat.cast_succ]
    congr 2 <;> ring

/-! ## Closed forms of whole runs -/

theorem headers_log_eq {σ : Type} (env : Env σ) :
    write_opus_tags env.g_tags (write_opus_header env.g_header_data []) = headers_log env := by
  have hlib : ∀ b ∈ ascii "libopus", b ≠ 0 := by decide
  have h1 : (header_data_of program_header env.g_header_data).length = 19 := by
    rw [header_data_of_eq program_header _ rfl, ascii_OpusHead]; rfl
  have h2 : (tags_of (cstring (ascii "libopus")) env.g_tags).length = 23 := by
    rw [tags_of_eq _ _ hlib, ascii_OpusTags, ascii_libopus]; rfl
  have hs : strlen (cstring (ascii "libopus")) = 7 := by decide
  have e1 : Int.toNat 19 = (header_data_of program_header env.g_header_data).length := by
    rw [h1]; rfl
  have e2 : Int.toNat ((16 + 7 : Nat) : Int) =
      (tags_of (cstring (ascii "libopus")) env.g_tags).length := by
    rw [h2]; rfl
  simp only [write_opus_tags, write_opus_header, headers_log, hs, List.nil_append, e1, e2,
    List.take_length, List.cons_append, header_packet, tags_packet]
  rfl

theorem main_ok {σ : Type} (env : Env σ) (file : List Nat)
    (hsetup : setup_ok env) (hfile : env.input_file = some file)
    (hgood : ∀ r ∈ encodings env file, 0 ≤ r.1)
    (hsmall : 2880 * ((complete_frames file).length : Int) < 2 ^ 63) :
    main env =
      ⟨headers_log env ++ audio_log 0 2 (encodings env file) ++
          [Call.packetin (final_packet env (encodings env file))
            (final_data env (encodings env file)), Call.flush_fill 4096],
        Outcome.returned 0,
        some (printf_d (2880 * ((complete_frames file).length : Int)),
          printf_d (3 + ((complete_frames file).length : Int)))⟩ := by
  obtain ⟨h1, h2, h3, h4⟩ := hsetup
  have hmain := main_loop_ok env (complete_frames file)
    { encoder := env.encoder
      output := uninit env.g_output 4096
      packet := env.packet0
      total_samples := 0
      packet_no := 2
      log := headers_log env }
  simp only at hmain
  obtain ⟨s', e1, e2, e3, e4, e5⟩ := hmain hgood (by omega) (by omega) (by omega) (by omega)
  have hw : wrap64 (2 + ((complete_frames file).length : Int) + 1) =
      3 + ((complete_frames file).length : Int) := by
    rw [wrap64_eq _ (by omega) (by omega)]
    ring
  have hlen : (encode_results env env.encoder (uninit env.g_output 4096)
      (complete_frames file)).length = (complete_frames file).length :=
    encode_results_length env _ _ _
  unfold main
  simp only [final_data, final_packet, encodings]
  rw [hlen]
  generalize uninit env.g_output 4096 = out0 at e1 e2 e5 ⊢
  generalize encode_results env env.encoder out0 (complete_frames file) = rs at e2 e5 ⊢
  have e5a : s'.packet = (final_vars (env.packet0, out0) 0 2 rs).1 := congrArg Prod.fst e5
  have e5b : s'.output = (final_vars (env.packet0, out0) 0 2 rs).2 := congrArg Prod.snd e5
  rw [if_neg (by simp [h1]), if_neg (by simp [h2]), if_neg (by simp [h3]), if_neg (by simp [h4])]
  simp only [hfile, headers_log_eq, e1, hw, e2, e3, e4, e5a, e5b, zero_add]

theorem main_fail {σ : Type} (env : Env σ) (file : List Nat) (j : Nat)
    (hsetup : setup_ok env) (hfile : env.input_file = some file)
    (hgood : ∀ r ∈ (encodings env file).take j, 0 ≤ r.1)
    (hbad : ∃ r, (encodings env file)[j]? = some r ∧ r.1 < 0)
    (hsmall : 2880 * (j : Int) < 2 ^ 63) :
    main env =
      ⟨headers_log env ++ audio_log 0 2 ((encodings env file).take j),
        Outcome.exit_failure "Opus encoding failed", none⟩ := by
  obtain ⟨h1, h2, h3, h4⟩ := hsetup
  have hmain := main_loop_fail env j (complete_frames file)
    { encoder := env.encoder
      output := uninit env.g_output 4096
      packet := env.packet0
      total_samples := 0
      packet_no := 2
      log := headers_log env }
  simp only at hmain
  obtain ⟨s', e1, e2⟩ := hmain hgood hbad (by omega) (by omega) (by omega) (by omega)
  unfold main
  simp only [encodings]
  generalize uninit env.g_output 4096 = out0 at e1 e2 ⊢
  rw [if_neg (by simp [h1]), if_neg (by simp [h2]), if_neg (by simp [h3]), if_neg (by simp [h4])]
  simp only [hfile, headers_log_eq, e1, e2]

theorem alternates_append (a b : List Call) (ha : alternates a = true) :
    alternates (a ++ b) = alternates b := by
  induction a using alternates.induct with
  | case1 => rfl
  | case2 op d rest ih =>
    simp only [alternates] at ha
    simp [alternates, ih ha]
  | case3 op d n rest ih =>
    simp only [alternates] at ha
    simp [alternates, ih ha]
  | case4 l h1 h2 h3 =>
    exfalso
    unfold alternates at ha
    split at ha
    · exact h1 rfl
    · exact h2 _ _ _ rfl
    · exact h3 _ _ _ _ rfl
    · exact Bool.false_ne_true ha

theorem main_loop_shape {σ : Type} (env : Env σ) (frames : List (List Nat)) :
    ∀ s : LoopState σ, ∃ tail : List Call,
      loop_log (main_loop env frames s) = s.log ++ tail ∧ alternates tail = true := by
  induction frames with
  | nil => intro s; exact ⟨[], by simp [main_loop, loop_log], rfl⟩
  | cons input rest ih =>
    intro s
    by_cases hneg : (env.opus_encode s.encoder input FRAME_SIZE s.output 4096).2.1 < 0
    · exact ⟨[], by simp [main_loop, hneg, loop_log], rfl⟩
    · simp only [main_loop, hneg, if_false]
      obtain ⟨tail, h1, h2⟩ := ih
        { encoder := (env.opus_encode s.encoder input FRAME_SIZE s.output 4096).1
          output := (env.opus_encode s.encoder input FRAME_SIZE s.output 4096).2.2
          packet :=
            { packet := Ptr.output
              bytes := (env.opus_encode s.encoder input FRAME_SIZE s.output 4096).2.1
              b_o_s := 0
              e_o_s := 0
              granulepos := s.total_samples
              packetno := s.packet_no }
          total_samples := wrap64 (s.total_samples + ((FRAME_SIZE * 3 : Nat) : Int))
          packet_no := wrap64 (s.packet_no + 1)
          log := s.log ++
            [Call.packetin
              { packet := Ptr.output
                bytes := (env.opus_encode s.encoder input FRAME_SIZE s.output 4096).2.1
                b_o_s := 0
                e_o_s := 0
                granulepos := s.total_samples
                packetno := s.packet_no }
              ((deref Ptr.output (env.opus_encode s.encoder input FRAME_SIZE s.output 4096).2.2
                env.wild).take (env.opus_encode s.encoder input FRAME_SIZE s.output 4096).2.1.toNat),
             Call.flush] }
      rw [h1]
      refine ⟨[Call.packetin _ _, Call.flush] ++ tail, List.append_assoc _ _ _, ?_⟩
      simpa [alternates] using h2

theorem main_log_shape {σ : Type} (env : Env σ) :
    (¬ setup_ok env ∧ (main env).log = []) ∨
      (setup_ok env ∧ ∃ tail : List Call,
        (main env).log = headers_log env ++ tail ∧ alternates tail = true) := by
  by_cases h1 : env.encoder_create_err = 0
  swap
  · exact Or.inl ⟨fun h => h1 h.1, by simp [main, h1]⟩
  by_cases h2 : env.encoder_ctl_err = 0
  swap
  · exact Or.inl ⟨fun h => h2 h.2.1, by simp [main, h1, h2]⟩
  by_cases h3 : env.stream_init_err = 0
  swap
  · exact Or.inl ⟨fun h => h3 h.2.2.1, by simp [main, h1, h2, h3]⟩
  by_cases h4 : env.out_opened = true
  swap
  · exact Or.inl ⟨fun h => h4 h.2.2.2, by simp [main, h1, h2, h3, h4]⟩
  refine Or.inr ⟨⟨h1, h2, h3, h4⟩, ?_⟩
  unfold main
  rw [if_neg (by simp [h1]), if_neg (by simp [h2]), if_neg (by simp [h3]), if_neg (by simp [h4])]
  simp only [headers_log_eq]
  cases hfile : env.input_file with
  | none => exact ⟨[], by simp, rfl⟩
  | some file =>
    simp only
    generalize uninit env.g_output 4096 = out0
    obtain ⟨tail, e1, e2⟩ := main_loop_shape env (complete_frames file)
      { encoder := env.encoder
        output := out0
        packet := env.packet0
        total_samples := 0
        packet_no := 2
        log := headers_log env }
    cases hloop : main_loop env (complete_frames file)
      { encoder := env.encoder
        output := out0
        packet := env.packet0
        total_samples := 0
        packet_no := 2
        log := headers_log env } with
    | error s' =>
      rw [hloop] at e1
      simp only [loop_log] at e1
      exact ⟨tail, e1, e2⟩
    | ok s' =>
      rw [hloop] at e1
      simp only [loop_log] at e1
      simp only [e1]
      refine ⟨tail ++ [Call.packetin _ _, Call.flush_fill 4096], List.append_assoc _ _ _, ?_⟩
      rw [alternates_append _ _ e2]
      rfl

theorem replay_alternates (log : List Call) :
    alternates log = true → ∀ m : Muxer, m.pending = [] →
      (log.foldl Muxer.call m).pending = [] ∧
      (log.foldl Muxer.call m).sink = m.sink ++ (submitted log).map (fun x => [x]) ∧
      (log.foldl Muxer.call m).seen = m.seen ++ List.replicate (submitted log).length 1 := by
  induction log using alternates.induct with
  | case1 => intro _ m hm; simp [hm, submitted]
  | case2 op d rest ih =>
    intro ha m hm
    simp only [alternates] at ha
    obtain ⟨i1, i2, i3⟩ := ih ha
      { pending := [], sink := m.sink ++ [[(op, d)]], seen := m.seen ++ [1] } rfl
    simp only [List.foldl_cons, Muxer.call, Muxer.drain, hm, List.nil_append, submitted,
      List.map_cons, List.length_cons, List.replicate_succ, List.cons_ne_nil, if_false,
      List.length_nil, Nat.zero_add]
    simp only [i1, i2, i3, List.append_assoc, List.singleton_append, and_self]
  | case3 op d n rest ih =>
    intro ha m hm
    simp only [alternates] at ha
    obtain ⟨i1, i2, i3⟩ := ih ha
      { pending := [], sink := m.sink ++ [[(op, d)]], seen := m.seen ++ [1] } rfl
    simp only [List.foldl_cons, Muxer.call, Muxer.drain, hm, List.nil_append, submitted,
      List.map_cons, List.length_cons, List.replicate_succ, List.cons_ne_nil, if_false,
      List.length_nil, Nat.zero_add]
    simp only [i1, i2, i3, List.append_assoc, List.singleton_append, and_self]
  | case4 l h1 h2 h3 =>
    intro ha
    exfalso
    unfold alternates at ha
    split at ha
    · exact h1 rfl
    · exact h2 _ _ _ rfl
    · exact h3 _ _ _ _ rfl
    · exact Bool.false_ne_true ha

theorem submitted_headers_log {σ : Type} (env : Env σ) :
    submitted (headers_log env) =
      [(header_packet, header_data_of program_header env.g_header_data),
       (tags_packet, tags_of (cstring (ascii "libopus")) env.g_tags)] := rfl

theorem submitted_main_ok {σ : Type} (env : Env σ) (file : List Nat)
    (hsetup : setup_ok env) (hfile : env.input_file = some file)
    (hgood : ∀ r ∈ encodings env file, 0 ≤ r.1)
    (hsmall : 2880 * ((complete_frames file).length : Int) < 2 ^ 63) :
    submitted (main env).log =
      (header_packet, header_data_of program_header env.g_header_data) ::
        (tags_packet, tags_of (cstring (ascii "libopus")) env.g_tags) ::
          (submitted (audio_log 0 2 (encodings env file)) ++
            [(final_packet env (encodings env file), final_data env (encodings env file))]) := by
  rw [main_ok env file hsetup hfile hgood hsmall]
  show submitted (headers_log env ++ audio_log 0 2 (encodings env file) ++ _) = _
  rw [submitted_append, submitted_append, submitted_headers_log]
  rfl

theorem range_shape (n : Nat) :
    (List.range (n + 3)).map (fun i : Nat => (i : Int)) =
      0 :: 1 :: ((List.range n).map (fun i : Nat => 2 + (i : Int)) ++ [2 + (n : Int)]) := by
  rw [List.range_succ, List.map_append]
  have h : ∀ m : Nat, (List.range (m + 2)).map (fun i : Nat => (i : Int)) =
      0 :: 1 :: (List.range m).map (fun i : Nat => 2 + (i : Int)) := by
    intro m
    rw [List.range_succ_eq_map, List.range_succ_eq_map]
    simp only [List.map_cons, List.map_map, Nat.cast_zero, List.cons.injEq, true_and]
    refine ⟨by simp, ?_⟩
    apply List.map_congr_left
    intro i _
    simp only [Function.comp, Nat.cast_succ]
    ring
  rw [h n]
  simp only [List.map_cons, List.map_nil, List.cons_append, Nat.cast_add, Nat.cast_ofNat]
  congr 3
  rw [add_comm]

theorem granule_sorted (n : Nat) :
    List.Sorted (fun a b : Int => a ≤ b)
      (0 :: 0 :: ((List.range n).map (fun i : Nat => (0 : Int) + 2880 * (i : Int)) ++
        [2880 * (n : Int)])) := by
  have hmem : ∀ i ∈ List.range n, (i : Int) < n := by
    intro i hi
    exact_mod_cast List.mem_range.mp hi
  simp only [List.Sorted, List.pairwise_cons, List.mem_cons, List.mem_append, List.mem_map,
    List.mem_singleton, List.pairwise_append, List.pairwise_map, List.Pairwise.nil,
    List.not_mem_nil, false_implies, implies_true, and_true, or_false, true_and]
  refine ⟨?_, ?_, ?_, ?_⟩
  · rintro a (rfl | ⟨i, _, rfl⟩ | rfl) <;> omega
  · rintro a (⟨i, _, rfl⟩ | rfl) <;> omega
  · exact (List.pairwise_le_range n).imp (fun h => by omega)
  · rintro a ⟨i, hi, rfl⟩ b rfl
    have := hmem i hi
    omega

theorem audio_packet_at {σ : Type} (env : Env σ) (file : List Nat)
    (hsetup : setup_ok env) (hfile : env.input_file = some file)
    (hgood : ∀ r ∈ encodings env file, 0 ≤ r.1)
    (hsmall : 2880 * ((complete_frames file).length : Int) < 2 ^ 63)
    (k : Nat) (r : Int × List Nat) (hk : (encodings env file)[k]? = some r) :
    (submitted (main env).log)[k + 2]? =
      some (audio_packet (0 + 2880 * (k : Int)) (2 + (k : Int)) r, payload r) := by
  have halen := audio_log_length (encodings env file) 0 2
  have hklt : k < (encodings env file).length := by
    by_contra hcon
    rw [List.getElem?_eq_none (by omega)] at hk
    exact Option.noConfusion hk
  rw [submitted_main_ok env file hsetup hfile hgood hsmall]
  simp only [List.getElem?_cons_succ]
  rw [List.getElem?_append_left (by omega), audio_log_getElem, hk]
  rfl

theorem final_packet_at {σ : Type} (env : Env σ) (file : List Nat)
    (hsetup : setup_ok env) (hfile : env.input_file = some file)
    (hgood : ∀ r ∈ encodings env file, 0 ≤ r.1)
    (hsmall : 2880 * ((complete_frames file).length : Int) < 2 ^ 63) :
    (submitted (main env).log)[(complete_frames file).length + 2]? =
      some (final_packet env (encodings env file), final_data env (encodings env file)) := by
  have halen := audio_log_length (encodings env file) 0 2
  have hlen := encodings_length env file
  rw [submitted_main_ok env file hsetup hfile hgood hsmall]
  simp only [List.getElem?_cons_succ]
  rw [List.getElem?_append_right (by omega)]
  simp [halen, hlen]

theorem final_packet_last {σ : Type} (env : Env σ) (file : List Nat)
    (hsetup : setup_ok env) (hfile : env.input_file = some file)
    (hgood : ∀ r ∈ encodings env file, 0 ≤ r.1)
    (hsmall : 2880 * ((complete_frames file).length : Int) < 2 ^ 63) :
    (submitted (main env).log).getLast? =
      some (final_packet env (encodings env file), final_data env (encodings env file)) := by
  rw [submitted_main_ok env file hsetup hfile hgood hsmall]
  rw [List.getLast?_cons_cons, ← List.cons_append, List.getLast?_concat]

theorem main_log_alternates {σ : Type} (env : Env σ) : alternates (main env).log = true := by
  rcases main_log_shape env with ⟨_, h⟩ | ⟨_, tail, h, ht⟩
  · rw [h]; rfl
  · have hh : alternates (headers_log env) = true := rfl
    rw [h, alternates_append _ _ hh]
    exact ht

theorem replay_main {σ : Type} (env : Env σ) :
    (replay (main env).log).pending = [] ∧
    (replay (main env).log).sink = (submitted (main env).log).map (fun x => [x]) ∧
    (replay (main env).log).seen = List.replicate (submitted (main env).log).length 1 := by
  have h := replay_alternates (main env).log (main_log_alternates env) ⟨[], [], []⟩ rfl
  simpa [replay] using h

theorem final_of_concat {σ : Type} (env : Env σ) (init : List (Int × List Nat))
    (r : Int × List Nat) :
    final_packet env (init ++ [r]) =
      { audio_packet (0 + 2880 * (init.length : Int)) (2 + (init.length : Int)) r with
        e_o_s := 1
        granulepos := 2880 * ((init.length : Int) + 1)
        packetno := 2 + ((init.length : Int) + 1) } ∧
    final_data env (init ++ [r]) = payload r := by
  have h := final_vars_last init (env.packet0, uninit env.g_output 4096) 0 2 r
  constructor
  · simp only [final_packet, h, List.length_append, List.length_singleton, Nat.cast_add,
      Nat.cast_one, audio_packet]
  · simp only [final_data, final_packet, h, audio_packet, deref, payload]

theorem flags_with_frames {σ : Type} (env : Env σ) (file : List Nat)
    (hsetup : setup_ok env) (hfile : env.input_file = some file)
    (hgood : ∀ r ∈ encodings env file, 0 ≤ r.1)
    (hsmall : 2880 * ((complete_frames file).length : Int) < 2 ^ 63)
    (hframes : 0 < (complete_frames file).length) :
    (submitted (main env).log).map (fun x => (x.1.b_o_s, x.1.e_o_s)) =
      (1, 0) :: (0, 0) ::
        (List.replicate (complete_frames file).length ((0 : Int), (0 : Int)) ++ [(0, 1)]) := by
  have hlen := encodings_length env file
  have halen := audio_log_length (encodings env file) 0 2
  rcases List.eq_nil_or_concat (encodings env file) with hnil | ⟨init, r, hcat⟩
  · rw [hnil] at hlen
    simp only [List.length_nil] at hlen
    omega
  · rw [List.concat_eq_append] at hcat
    rw [submitted_main_ok env file hsetup hfile hgood hsmall]
    simp only [List.map_cons, List.map_append, List.map_nil, header_packet, tags_packet,
      List.cons.injEq, true_and]
    congr 1
    · apply List.eq_replicate_iff.mpr
      refine ⟨by simp [halen, hlen], ?_⟩
      intro b hb
      obtain ⟨x, hx, rfl⟩ := List.mem_map.mp hb
      obtain ⟨f1, f2, _⟩ := audio_log_flags _ _ _ x hx
      rw [f1, f2]
    · rw [hcat, (final_of_concat env init r).1]
      rfl

/-! ## Facts about the concrete runs -/

theorem sample_setup_ok (bad : Nat) (nb : Int) (len : Nat) (packet0 : ogg_packet) :
    setup_ok (sample_env bad nb len packet0) := ⟨rfl, rfl, rfl, rfl⟩

theorem sample_frames_length (len : Nat) :
    (complete_frames (List.replicate len 0)).length = len / 1920 := by
  simp [complete_frames, frame_size_in_bytes, FRAME_SIZE, CHANNELS]

theorem sample_results_never_bad (nb : Int) (len : Nat) (packet0 : ogg_packet)
    (frames : List (List Nat)) :
    ∀ (k : Nat) (output : List Nat),
      ∀ r ∈ encode_results (sample_env 0 nb len packet0) k output frames, r.1 = nb := by
  induction frames with
  | nil => intro k output r hr; simp [encode_results] at hr
  | cons input rest ih =>
    intro k output r hr
    simp only [encode_results, List.mem_cons] at hr
    rcases hr with hr | hr
    · subst hr
      simp [sample_env, sample_encode]
    · exact ih _ _ r hr

theorem sample_good (nb : Int) (hnb : 0 ≤ nb) (len : Nat) (packet0 : ogg_packet) :
    ∀ r ∈ encodings (sample_env 0 nb len packet0) (List.replicate len 0), 0 ≤ r.1 := by
  intro r hr
  have := sample_results_never_bad nb len packet0 _ _ _ r hr
  omega

theorem sample_fails_second (len : Nat) (packet0 : ogg_packet) (f1 f2 f3 output : List Nat) :
    ∃ o1 o2 o3, encode_results (sample_env 2 3 len packet0) 0 output [f1, f2, f3] =
      [(3, o1), (-1, o2), (3, o3)] := by
  simp only [encode_results, sample_env, sample_encode]
  exact ⟨_, _, _, rfl⟩

/-! ## The packet sequence of a run -/

/-- Claim C3. In a run whose set-up succeeds, whose input file holds `n` complete
frames and in which no encode returns a negative result, the program returns
0 and submits exactly `n + 3` packets: the identification header, the comment
header, one packet per frame carrying that frame's encoding, and the final
end-of-stream packet.  Their packet numbers are `0, 1, 2, ..., n + 2` in order,
their granule positions are non-decreasing, and both header packets carry
granule position 0.  (`n` is small enough for `ogg_int64_t`.) -/
theorem C3_packet_numbers_and_granule_order {σ : Type} (env : Env σ) (file : List Nat)
    (hsetup : setup_ok env) (hfile : env.input_file = some file)
    (hgood : ∀ r ∈ encodings env file, 0 ≤ r.1)
    (hsmall : 2880 * ((complete_frames file).length : Int) < 2 ^ 63) :
    (main env).outcome = Outcome.returned 0 ∧
    (submitted (main env).log).length = (complete_frames file).length + 3 ∧
    (submitted (main env).log)[0]? =
      some (header_packet, header_data_of program_header env.g_header_data) ∧
    (submitted (main env).log)[1]? =
      some (tags_packet, tags_of (cstring (ascii "libopus")) env.g_tags) ∧
    (∀ (k : Nat) (r : Int × List Nat), (encodings env file)[k]? = some r →
      ((submitted (main env).log)[k + 2]?).map Prod.snd = some (payload r)) ∧
    ((submitted (main env).log)[(complete_frames file).length + 2]?).map (fun x => x.1.e_o_s) =
      some 1 ∧
    (submitted (main env).log).map (fun x => x.1.packetno) =
      (List.range ((complete_frames file).length + 3)).map (fun i : Nat => (i : Int)) ∧
    List.Sorted (fun a b : Int => a ≤ b)
      ((submitted (main env).log).map (fun x => x.1.granulepos)) ∧
    header_packet.granulepos = 0 ∧ tags_packet.granulepos = 0 := by
  have hsub := submitted_main_ok env file hsetup hfile hgood hsmall
  have hlen := encodings_length env file
  have halen := audio_log_length (encodings env file) 0 2
  refine ⟨?_, ?_, ?_, ?_, ?_, ?_, ?_, ?_, rfl, rfl⟩
  · rw [main_ok env file hsetup hfile hgood hsmall]
  · rw [hsub]
    simp [halen, hlen]
  · rw [hsub]; rfl
  · rw [hsub]; simp
  · intro k r hk
    have hklt : k < (encodings env file).length := by
      by_contra hcon
      rw [List.getElem?_eq_none (by omega)] at hk
      exact Option.noConfusion hk
    rw [hsub]
    simp only [List.getElem?_cons_succ]
    rw [List.getElem?_append_left (by omega), audio_log_getElem, hk]
    rfl
  · rw [hsub]
    simp only [List.getElem?_cons_succ]
    rw [List.getElem?_append_right (by omega)]
    simp [halen, hlen, final_packet]
  · rw [hsub, range_shape]
    simp only [List.map_cons, List.map_append, audio_log_packetno, List.map_nil, hlen,
      final_packet, header_packet, tags_packet]
  · rw [hsub]
    simp only [List.map_cons, List.map_append, audio_log_granulepos, List.map_nil, hlen,
      final_packet, header_packet, tags_packet]
    exact granule_sorted _

/-- A run over three complete frames, none of which fails, satisfies the
hypotheses of claim C3. -/
theorem C3_witness :
    (main (sample_env 0 3 5760 header_packet)).outcome = Outcome.returned 0 ∧
    (submitted (main (sample_env 0 3 5760 header_packet)).log).map (fun x => x.1.packetno) =
      [0, 1, 2, 3, 4, 5] ∧
    List.Sorted (fun a b : Int => a ≤ b)
      ((submitted (main (sample_env 0 3 5760 header_packet)).log).map
        (fun x => x.1.granulepos)) := by
  have hn := sample_frames_length 5760
  have h := C3_packet_numbers_and_granule_order (sample_env 0 3 5760 header_packet)
    (List.replicate 5760 0) (sample_setup_ok _ _ _ _) rfl (sample_good 3 (by decide) _ _)
    (by rw [hn]; decide)
  rw [hn] at h
  exact ⟨h.1, h.2.2.2.2.2.2.1, h.2.2.2.2.2.2.2.1⟩

/-! ## Granule positions and the running sample total -/

/-- Claim C4, what the code does. In a run over one complete frame that encodes
successfully, the packet built for frame 1 (packet number 2) carries granule
position 0, the running total before the frame's duration is added, while the
running total after frame 1 is 2880; the frame's own duration only shows up
in the granule position of the following (final) packet. -/
theorem C4_audio_packet_carries_total_before_frame :
    (main (sample_env 0 3 1920 header_packet)).outcome = Outcome.returned 0 ∧
    (complete_frames (List.replicate 1920 0)).length = 1 ∧
    ((submitted (main (sample_env 0 3 1920 header_packet)).log)[2]?).map
        (fun x => (x.1.packetno, x.1.granulepos, x.1.e_o_s)) = some (2, 0, 0) ∧
    ((submitted (main (sample_env 0 3 1920 header_packet)).log)[3]?).map
        (fun x => (x.1.packetno, x.1.granulepos, x.1.e_o_s)) = some (3, 2880, 1) ∧
    (main (sample_env 0 3 1920 header_packet)).report = some (2880, 4) := by
  have hn := sample_frames_length 1920
  have hs : setup_ok (sample_env 0 3 1920 header_packet) := sample_setup_ok _ _ _ _
  have hg := sample_good 3 (by decide) 1920 header_packet
  have hsmall : 2880 * ((complete_frames (List.replicate 1920 0)).length : Int) < 2 ^ 63 := by
    rw [hn]; decide
  have hlen := encodings_length (sample_env 0 3 1920 header_packet) (List.replicate 1920 0)
  rw [hn] at hlen
  obtain ⟨r, hr⟩ : ∃ r, (encodings (sample_env 0 3 1920 header_packet)
      (List.replicate 1920 0))[0]? = some r := by
    cases h : encodings (sample_env 0 3 1920 header_packet) (List.replicate 1920 0) with
    | nil => rw [h] at hlen; exact absurd hlen (by decide)
    | cons a t => exact ⟨a, by simp⟩
  have h2 := audio_packet_at _ _ hs rfl hg hsmall 0 r hr
  have h3 := final_packet_at _ _ hs rfl hg hsmall
  rw [hn] at h3
  refine ⟨?_, hn, ?_, ?_, ?_⟩
  · rw [main_ok _ _ hs rfl hg hsmall]
  · rw [h2]; rfl
  · rw [h3]
    simp only [Option.map_some', final_packet, hlen]
    rfl
  · rw [main_ok _ _ hs rfl hg hsmall, hn]
    rfl

/-- Claim C5 as stated, refuted. In a run over one complete frame that encodes
successfully, the running sample total reported at the end is 2880, not
`FRAME_SIZE * 1 = 960`. -/
theorem C5_counterexample :
    (complete_frames (List.replicate 1920 0)).length = 1 ∧
    (main (sample_env 0 3 1920 header_packet)).report.map Prod.fst = some 2880 ∧
    (main (sample_env 0 3 1920 header_packet)).report.map Prod.fst ≠
      some (((FRAME_SIZE * 1 : Nat)) : Int) := by
  have hn := sample_frames_length 1920
  have hs : setup_ok (sample_env 0 3 1920 header_packet) := sample_setup_ok _ _ _ _
  have hg := sample_good 3 (by decide) 1920 header_packet
  have hsmall : 2880 * ((complete_frames (List.replicate 1920 0)).length : Int) < 2 ^ 63 := by
    rw [hn]; decide
  rw [main_ok _ _ hs rfl hg hsmall, hn]
  exact ⟨rfl, rfl, by decide⟩

/-- Claim C5, amended. Each successfully encoded frame adds exactly
`FRAME_SIZE * 3 = 2880` to the running sample total: from a state with total
`t`, the loop over `n` frames, none of which fails, ends normally with total
`t + 2880 * n`; from the initial total 0 that is `2880 * n`.  (The totals stay
within `ogg_int64_t`.) -/
theorem C5_running_total_grows_by_three_frame_sizes {σ : Type} (env : Env σ)
    (frames : List (List Nat)) (s : LoopState σ)
    (hgood : ∀ r ∈ encode_results env s.encoder s.output frames, 0 ≤ r.1)
    (ht1 : -2 ^ 63 ≤ s.total_samples)
    (ht2 : s.total_samples + 2880 * (frames.length : Int) < 2 ^ 63)
    (hp1 : -2 ^ 63 ≤ s.packet_no) (hp2 : s.packet_no + (frames.length : Int) < 2 ^ 63) :
    ∃ s' : LoopState σ, main_loop env frames s = Except.ok s' ∧
      s'.total_samples = s.total_samples + ((FRAME_SIZE * 3 : Nat) : Int) * (frames.length : Int) ∧
      (s.total_samples = 0 → s'.total_samples = 2880 * (frames.length : Int)) := by
  obtain ⟨s', h1, _, h3, _, _⟩ := main_loop_ok env frames s hgood ht1 ht2 hp1 hp2
  have e : ((FRAME_SIZE * 3 : Nat) : Int) = 2880 := by decide
  refine ⟨s', h1, ?_, ?_⟩
  · rw [h3, e]
  · intro h0
    rw [h3, h0]
    ring

/-- Three frames from the initial state of the loop satisfy the hypotheses of
the amended claim C5: the total ends at 8640. -/
theorem C5_witness :
    ∃ s' : LoopState Nat,
      main_loop (sample_env 0 3 5760 header_packet) [[0, 0], [1, 1], [2, 2]]
        { encoder := 0, output := [], packet := header_packet, total_samples := 0,
          packet_no := 2, log := [] } = Except.ok s' ∧
      s'.total_samples = 0 + ((FRAME_SIZE * 3 : Nat) : Int) * (3 : Nat) ∧
      ((0 : Int) = 0 → s'.total_samples = 2880 * (3 : Nat)) :=
  C5_running_total_grows_by_three_frame_sizes (sample_env 0 3 5760 header_packet)
    [[0, 0], [1, 1], [2, 2]]
    { encoder := 0, output := [], packet := header_packet, total_samples := 0,
      packet_no := 2, log := [] }
    (fun r hr => by
      have := sample_results_never_bad 3 5760 header_packet _ _ _ r hr
      omega)
    (by decide) (by decide) (by decide) (by decide)

/-- The end of every successful run over `n` complete frames: the program
returns 0, its last call is the `ogg_stream_flush_fill` loop with target 4096,
and the last packet submitted has end-of-stream set, granule position
`(FRAME_SIZE * 3) * n` (the final running total) and packet number `n + 2`.
The message of line 167 shows what `%d` makes of that total and of the packet
counter `n + 3`, which are the values themselves as long as the total is below
`2^31`. -/
theorem final_packet_of_successful_run {σ : Type} (env : Env σ) (file : List Nat)
    (hsetup : setup_ok env) (hfile : env.input_file = some file)
    (hgood : ∀ r ∈ encodings env file, 0 ≤ r.1)
    (hsmall : 2880 * ((complete_frames file).length : Int) < 2 ^ 63) :
    (main env).outcome = Outcome.returned 0 ∧
    (main env).log.getLast? = some (Call.flush_fill 4096) ∧
    ∃ fp : ogg_packet, ∃ fd : List Nat,
      (submitted (main env).log).getLast? = some (fp, fd) ∧
      fp.e_o_s = 1 ∧
      fp.granulepos = ((FRAME_SIZE * 3 : Nat) : Int) * ((complete_frames file).length : Int) ∧
      fp.packetno = ((complete_frames file).length : Int) + 2 ∧
      (main env).report = some (printf_d fp.granulepos, printf_d (fp.packetno + 1)) ∧
      (2880 * ((complete_frames file).length : Int) < 2 ^ 31 →
        (main env).report = some (fp.granulepos, fp.packetno + 1)) := by
  have hlen := encodings_length env file
  have e : ((FRAME_SIZE * 3 : Nat) : Int) = 2880 := by decide
  have e3 : (3 : Int) + ((complete_frames file).length : Int) =
      2 + ((complete_frames file).length : Int) + 1 := by ring
  refine ⟨?_, ?_, final_packet env (encodings env file), final_data env (encodings env file),
    final_packet_last env file hsetup hfile hgood hsmall, rfl, ?_, ?_, ?_, ?_⟩
  · rw [main_ok env file hsetup hfile hgood hsmall]
  · rw [main_ok env file hsetup hfile hgood hsmall]
    simp
  · simp only [final_packet, hlen, e]
  · simp only [final_packet, hlen]
    ring
  · rw [main_ok env file hsetup hfile hgood hsmall]
    simp only [final_packet, hlen, e3]
  · intro h31
    rw [main_ok env file hsetup hfile hgood hsmall]
    simp only [final_packet, hlen, e3, printf_d, Option.some.injEq, Prod.mk.injEq]
    constructor <;> omega

/-- Claim C6, what the code does.  In a run over 745655 complete frames (an
input file of 1431657600 bytes), none of which fails to encode, the program
returns 0 and the final packet has end-of-stream set, granule position
2147486400 (the final running total, 2880 times 745655) and packet number
745657; the message of line 167, which prints the 64-bit total with `%d`,
shows -2147480896 for the total sample count (and 745658 for the packet
counter). -/
theorem C6_report_truncates_total_on_long_input :
    (complete_frames (List.replicate 1431657600 0)).length = 745655 ∧
    (main (sample_env 0 3 1431657600 header_packet)).outcome = Outcome.returned 0 ∧
    ((submitted (main (sample_env 0 3 1431657600 header_packet)).log).getLast?).map
        (fun x => (x.1.e_o_s, x.1.granulepos, x.1.packetno)) =
      some (1, 2147486400, 745657) ∧
    (main (sample_env 0 3 1431657600 header_packet)).report =
      some (-2147480896, 745658) := by
  have hn : (complete_frames (List.replicate 1431657600 0)).length = 745655 := by
    rw [sample_frames_length]
  have hs : setup_ok (sample_env 0 3 1431657600 header_packet) := sample_setup_ok _ _ _ _
  have hg := sample_good 3 (by decide) 1431657600 header_packet
  have hsmall : 2880 * ((complete_frames (List.replicate 1431657600 0)).length : Int) <
      2 ^ 63 := by
    rw [hn]; decide
  have hlen := encodings_length (sample_env 0 3 1431657600 header_packet)
    (List.replicate 1431657600 0)
  rw [hn] at hlen
  refine ⟨hn, ?_, ?_, ?_⟩
  · rw [main_ok _ _ hs rfl hg hsmall]
  · rw [final_packet_last _ _ hs rfl hg hsmall]
    simp only [Option.map_some', final_packet, hlen]
    decide
  · rw [main_ok _ _ hs rfl hg hsmall, hn]
    decide

/-! ## Stream flags -/

/-- Claim C7, what the code does. In a run over an input file without a
complete frame the loop body never runs, so the final packet is the `packet`
variable as it was declared, with only `e_o_s`, `granulepos` and `packetno`
assigned: its beginning-of-stream flag is whatever `packet` held.  The run
returns 0 and submits three packets whose flag pairs `(b_o_s, e_o_s)` are
`(1, 0)`, `(0, 0)` and `(packet0.b_o_s, 1)`. -/
theorem C7_empty_input_final_flags_indeterminate (packet0 : ogg_packet) :
    (main (sample_env 0 3 0 packet0)).outcome = Outcome.returned 0 ∧
    (complete_frames (List.replicate 0 0)).length = 0 ∧
    (submitted (main (sample_env 0 3 0 packet0)).log).map (fun x => (x.1.b_o_s, x.1.e_o_s)) =
      [(1, 0), (0, 0), (packet0.b_o_s, 1)] ∧
    ((submitted (main (sample_env 0 3 0 header_packet)).log).filter
      (fun x => decide (x.1.b_o_s = 1))).length = 2 := by
  have hn := sample_frames_length 0
  have hsmall : 2880 * ((complete_frames (List.replicate 0 0)).length : Int) < 2 ^ 63 := by
    rw [hn]; decide
  have henc : ∀ p0 : ogg_packet, encodings (sample_env 0 3 0 p0) (List.replicate 0 0) = [] :=
    fun _ => rfl
  have hsub := fun p0 : ogg_packet => submitted_main_ok (sample_env 0 3 0 p0)
    (List.replicate 0 0) (sample_setup_ok _ _ _ _) rfl (sample_good 3 (by decide) _ _) hsmall
  refine ⟨?_, hn, ?_, ?_⟩
  · rw [main_ok _ _ (sample_setup_ok _ _ _ _) rfl (sample_good 3 (by decide) _ _) hsmall]
  · rw [hsub packet0, henc]
    rfl
  · rw [hsub header_packet, henc]
    rfl

/-! ## Encode failure -/

/-- Claim C8. In a run whose set-up succeeds, if the encoder returns a negative
result on frame `j + 1` and non-negative results on frames `1..j`, the program
exits with the failure `Opus encoding failed` and reports nothing.  The packets
it has submitted are exactly the identification header, the comment header and
the encodings of frames `1..j`, numbered `0..j + 1`, none with end-of-stream
set; each was drained to the sink by its own flush loop, in that order, and
nothing is left pending.  (`j` is small enough for `ogg_int64_t`.) -/
theorem C8_encode_failure_aborts {σ : Type} (env : Env σ) (file : List Nat) (j : Nat)
    (hsetup : setup_ok env) (hfile : env.input_file = some file)
    (hgood : ∀ r ∈ (encodings env file).take j, 0 ≤ r.1)
    (hbad : ∃ r, (encodings env file)[j]? = some r ∧ r.1 < 0)
    (hsmall : 2880 * (j : Int) < 2 ^ 63) :
    (main env).outcome = Outcome.exit_failure "Opus encoding failed" ∧
    (main env).report = none ∧
    (submitted (main env).log).map Prod.snd =
      header_data_of program_header env.g_header_data ::
        tags_of (cstring (ascii "libopus")) env.g_tags ::
          ((encodings env file).take j).map payload ∧
    (submitted (main env).log).map (fun x => x.1.packetno) =
      (List.range (j + 2)).map (fun i : Nat => (i : Int)) ∧
    (∀ x ∈ submitted (main env).log, x.1.e_o_s = 0) ∧
    (replay (main env).log).sink = (submitted (main env).log).map (fun x => [x]) ∧
    (replay (main env).log).pending = [] := by
  have hmain := main_fail env file j hsetup hfile hgood hbad hsmall
  have hjlen : ((encodings env file).take j).length = j := by
    obtain ⟨r, hr, _⟩ := hbad
    have hklt : j < (encodings env file).length := by
      by_contra hcon
      rw [List.getElem?_eq_none (by omega)] at hr
      exact Option.noConfusion hr
    rw [List.length_take]
    omega
  have hsub : submitted (main env).log =
      (header_packet, header_data_of program_header env.g_header_data) ::
        (tags_packet, tags_of (cstring (ascii "libopus")) env.g_tags) ::
          submitted (audio_log 0 2 ((encodings env file).take j)) := by
    rw [hmain]
    show submitted (headers_log env ++ _) = _
    rw [submitted_append, submitted_headers_log]
    rfl
  obtain ⟨hp, hs, _⟩ := replay_main env
  refine ⟨by rw [hmain], by rw [hmain], ?_, ?_, ?_, hs, hp⟩
  · rw [hsub]
    simp only [List.map_cons, audio_log_data]
  · rw [hsub]
    simp only [List.map_cons, audio_log_packetno, hjlen, header_packet, tags_packet]
    rw [List.range_succ_eq_map, List.range_succ_eq_map]
    simp only [List.map_cons, List.map_map, Nat.cast_zero, List.cons.injEq, true_and]
    refine ⟨by simp, ?_⟩
    apply List.map_congr_left
    intro i _
    simp only [Function.comp, Nat.cast_succ]
    ring
  · intro x hx
    rw [hsub] at hx
    simp only [List.mem_cons] at hx
    rcases hx with rfl | rfl | hx
    · rfl
    · rfl
    · exact (audio_log_flags _ _ _ x hx).2.1

/-- A run over three complete frames in which the encoder fails on frame 2
satisfies the hypotheses of claim C8 with `j = 1`: the headers and frame 1 only. -/
theorem C8_witness :
    (main (sample_env 2 3 5760 header_packet)).outcome =
      Outcome.exit_failure "Opus encoding failed" ∧
    (submitted (main (sample_env 2 3 5760 header_packet)).log).map (fun x => x.1.packetno) =
      [0, 1, 2] ∧
    (∀ x ∈ submitted (main (sample_env 2 3 5760 header_packet)).log, x.1.e_o_s = 0) ∧
    (replay (main (sample_env 2 3 5760 header_packet)).log).sink =
      (submitted (main (sample_env 2 3 5760 header_packet)).log).map (fun x => [x]) ∧
    (replay (main (sample_env 2 3 5760 header_packet)).log).pending = [] := by
  have hn := sample_frames_length 5760
  obtain ⟨f1, f2, f3, hf⟩ := List.length_eq_three.mp hn
  obtain ⟨o1, o2, o3, he⟩ : ∃ o1 o2 o3, encodings (sample_env 2 3 5760 header_packet)
      (List.replicate 5760 0) = [(3, o1), (-1, o2), (3, o3)] := by
    have h3 := sample_fails_second 5760 header_packet f1 f2 f3
      (uninit (sample_env 2 3 5760 header_packet).g_output 4096)
    rw [← hf] at h3
    exact h3
  have h := C8_encode_failure_aborts (sample_env 2 3 5760 header_packet)
    (List.replicate 5760 0) 1 (sample_setup_ok _ _ _ _) rfl
    (by rw [he]; simp) ⟨(-1, o2), by rw [he]; rfl, by simp⟩ (by decide)
  exact ⟨h.1, h.2.2.2.1, h.2.2.2.2.1, h.2.2.2.2.2.1, h.2.2.2.2.2.2⟩

/-! ## Flushing discipline -/

/-- Claim C9. In every run, whatever the environment does, each
`ogg_stream_packetin` is immediately followed by a flush loop and nothing else
is called on the stream.  On the modelled stream, where a flush loop drains all
pending packets, every flush loop therefore finds exactly one pending packet,
each submitted packet is written to the sink by its own flush loop in
submission order with nothing left pending, and, once the set-up has
succeeded, the first thing written to the sink carries the identification
header alone. -/
theorem C9_each_packet_flushed_before_next {σ : Type} (env : Env σ) :
    alternates (main env).log = true ∧
    (replay (main env).log).seen = List.replicate (submitted (main env).log).length 1 ∧
    (∀ c ∈ (replay (main env).log).seen, c = 1) ∧
    (replay (main env).log).sink = (submitted (main env).log).map (fun x => [x]) ∧
    (replay (main env).log).pending = [] ∧
    (replay (main env).log).sink.head? =
      if setup_ok env then
        some [(header_packet, header_data_of program_header env.g_header_data)]
      else none := by
  obtain ⟨hp, hs, hseen⟩ := replay_main env
  refine ⟨main_log_alternates env, hseen, ?_, hs, hp, ?_⟩
  · intro c hc
    rw [hseen] at hc
    exact (List.mem_replicate.mp hc).2
  · rw [hs]
    rcases main_log_shape env with ⟨hno, h⟩ | ⟨hyes, tail, h, _⟩
    · rw [h, if_neg hno]
      rfl
    · rw [h, if_pos hyes, submitted_append, submitted_headers_log]
      rfl

/-! ## The payload of the final packet -/

/-- Claim C10 as stated, refuted. In a run over one complete frame whose
encoding succeeds with result 0 (no failure: the result is not negative), the
final end-of-stream packet is empty: zero bytes. -/
theorem C10_counterexample :
    (main (sample_env 0 0 1920 header_packet)).outcome = Outcome.returned 0 ∧
    (complete_frames (List.replicate 1920 0)).length = 1 ∧
    (∀ r ∈ encodings (sample_env 0 0 1920 header_packet) (List.replicate 1920 0), 0 ≤ r.1) ∧
    ((submitted (main (sample_env 0 0 1920 header_packet)).log).getLast?).map
      (fun x => (x.1.e_o_s, x.1.bytes, x.2)) = some (1, 0, []) := by
  have hn := sample_frames_length 1920
  have hs : setup_ok (sample_env 0 0 1920 header_packet) := sample_setup_ok _ _ _ _
  have hg := sample_good 0 (by decide) 1920 header_packet
  have hsmall : 2880 * ((complete_frames (List.replicate 1920 0)).length : Int) < 2 ^ 63 := by
    rw [hn]; decide
  have hlen := encodings_length (sample_env 0 0 1920 header_packet) (List.replicate 1920 0)
  rw [hn] at hlen
  obtain ⟨r, hr⟩ := List.length_eq_one.mp hlen
  have hr0 : r.1 = 0 := by
    apply sample_results_never_bad 0 1920 header_packet _ _ _ r
    show r ∈ encodings (sample_env 0 0 1920 header_packet) (List.replicate 1920 0)
    rw [hr]
    simp
  have hfin := final_of_concat (sample_env 0 0 1920 header_packet) [] r
  simp only [List.nil_append] at hfin
  refine ⟨?_, hn, hg, ?_⟩
  · rw [main_ok _ _ hs rfl hg hsmall]
  · rw [final_packet_last _ _ hs rfl hg hsmall, hr, hfin.1, hfin.2]
    simp [audio_packet, payload, hr0]

/-- Claim C10, amended. In a run whose set-up succeeds, over `n >= 1` complete
frames none of which fails to encode, the final end-of-stream packet carries no
new data: its bytes and its length are those of the last audio packet, the
encoding of frame `n`, and it differs from that packet only in the
end-of-stream flag, the granule position and the packet number.  The payloads
submitted are the identification header, the comment header, the encodings of
frames `1..n`, and the encoding of frame `n` once more.  (`n` is small enough
for `ogg_int64_t`.) -/
theorem C10_final_packet_repeats_last_payload {σ : Type} (env : Env σ) (file : List Nat)
    (hsetup : setup_ok env) (hfile : env.input_file = some file)
    (hgood : ∀ r ∈ encodings env file, 0 ≤ r.1)
    (hsmall : 2880 * ((complete_frames file).length : Int) < 2 ^ 63)
    (hframes : 0 < (complete_frames file).length) :
    ∃ rlast : Int × List Nat, (encodings env file).getLast? = some rlast ∧
      (submitted (main env).log).map Prod.snd =
        header_data_of program_header env.g_header_data ::
          tags_of (cstring (ascii "libopus")) env.g_tags ::
            ((encodings env file).map payload ++ [payload rlast]) ∧
      ∃ pa pf : ogg_packet,
        (submitted (main env).log)[(complete_frames file).length + 1]? =
          some (pa, payload rlast) ∧
        (submitted (main env).log)[(complete_frames file).length + 2]? =
          some (pf, payload rlast) ∧
        pa.bytes = rlast.1 ∧
        pa.e_o_s = 0 ∧
        pf = { pa with
                e_o_s := 1
                granulepos := pa.granulepos + 2880
                packetno := pa.packetno + 1 } := by
  have hlen := encodings_length env file
  rcases List.eq_nil_or_concat (encodings env file) with hnil | ⟨init, r, hcat⟩
  · rw [hnil] at hlen
    simp only [List.length_nil] at hlen
    omega
  · rw [List.concat_eq_append] at hcat
    have hn : (complete_frames file).length = init.length + 1 := by
      rw [← hlen, hcat]
      simp
    have hk : (encodings env file)[init.length]? = some r := by
      rw [hcat]
      simp
    have hfin := final_of_concat env init r
    have ha := audio_packet_at env file hsetup hfile hgood hsmall init.length r hk
    have hf := final_packet_at env file hsetup hfile hgood hsmall
    rw [hcat, hfin.1, hfin.2] at hf
    refine ⟨r, by rw [hcat, List.getLast?_concat], ?_,
      audio_packet (0 + 2880 * (init.length : Int)) (2 + (init.length : Int)) r, _, ?_, hf,
      rfl, rfl, ?_⟩
    · rw [submitted_main_ok env file hsetup hfile hgood hsmall]
      simp only [List.map_cons, List.map_append, audio_log_data, List.map_nil]
      rw [hcat, hfin.2]
    · rw [hn]
      exact ha
    · simp only [audio_packet, ogg_packet.mk.injEq, true_and]
      constructor <;> ring

/-- A run over three complete frames satisfies the hypotheses of the amended
claim C10. -/
theorem C10_witness :
    ∃ rlast : Int × List Nat,
      (encodings (sample_env 0 3 5760 header_packet) (List.replicate 5760 0)).getLast? =
        some rlast ∧
      (submitted (main (sample_env 0 3 5760 header_packet)).log).map Prod.snd =
        header_data_of program_header (fun _ => 0) ::
          tags_of (cstring (ascii "libopus")) (fun i => i) ::
            ((encodings (sample_env 0 3 5760 header_packet) (List.replicate 5760 0)).map payload ++
              [payload rlast]) ∧
      ∃ pa pf : ogg_packet,
        (submitted (main (sample_env 0 3 5760 header_packet)).log)[3 + 1]? =
          some (pa, payload rlast) ∧
        (submitted (main (sample_env 0 3 5760 header_packet)).log)[3 + 2]? =
          some (pf, payload rlast) ∧
        pa.bytes = rlast.1 ∧
        pa.e_o_s = 0 ∧
        pf = { pa with
                e_o_s := 1
                granulepos := pa.granulepos + 2880
                packetno := pa.packetno + 1 } := by
  have hn := sample_frames_length 5760
  have h := C10_final_packet_repeats_last_payload (sample_env 0 3 5760 header_packet)
    (List.replicate 5760 0) (sample_setup_ok _ _ _ _) rfl (sample_good 3 (by decide) _ _)
    (by rw [hn]; decide) (by rw [hn]; decide)
  rw [hn] at h
  exact h

end OpusOgg
